import Mathlib

/-!
Shallow embedding of the Second-Brain RAG engine core, translated from the
TypeScript source:

- src/lib/storage.ts   : chunkText (overlapping fixed-size text chunking)
- src/lib/similarity.ts: cosine, rankByCosine (dense rerank stage)
- src/lib/ollama.ts    : embedWithOllama (batched embedding client)
- the query route (POST /api/query): candidate selection handed to rankByCosine

Strings are modelled as lists of characters, JavaScript numbers as real
numbers, and the possibly-non-terminating while loop of chunkText as a
fuelled recursion returning none when the fuel runs out.
-/

/-! ## Chunker (src/lib/storage.ts, chunkText) -/

/-- Whitespace test used to model String.prototype.trim. The source relies on
JavaScript trim, which strips whitespace characters from both ends; we model
the common ASCII whitespace characters, which is all the claims exercise. -/
def isWS (c : Char) : Bool :=
  c = ' ' ∨ c = '\t' ∨ c = '\n' ∨ c = '\r'

/-- Model of String.prototype.trim: drop whitespace from both ends. -/
def trimChars (l : List Char) : List Char :=
  ((l.dropWhile isWS).reverse.dropWhile isWS).reverse

/-- Model of String.prototype.substring(a, b): each argument is clamped to
[0, length] and the two are swapped when given in decreasing order. -/
def jsSubstring (s : List Char) (a b : Int) : List Char :=
  let a2 : Nat := (min (max a 0) (s.length : Int)).toNat
  let b2 : Nat := (min (max b 0) (s.length : Int)).toNat
  (s.take (max a2 b2)).drop (min a2 b2)

/-- A chunk produced by chunkText: zero-based index, text, and tokenCount
(the source uses the character count as the approximate token count). -/
structure TextChunk where
  index : Nat
  text : List Char
  tokenCount : Nat
  deriving Repr, DecidableEq

/-- The scan-position update of the chunkText loop (storage.ts line 149):
startIndex += chunkSize - overlap. -/
def nextStart (chunkSize overlap start : Int) : Int :=
  start + (chunkSize - overlap)

/-- endIndex of one loop iteration (storage.ts line 123):
min(start + chunkSize, text.length). -/
def sliceEnd (text : List Char) (chunkSize start : Int) : Int :=
  min (start + chunkSize) (text.length : Int)

/-- The trimmed slice of one iteration (lines 124-127):
text.substring(start, endIndex).trim(). -/
def pieceAt (text : List Char) (chunkSize start : Int) : List Char :=
  trimChars (jsSubstring text start (sliceEnd text chunkSize start))

/-- chunks.push for a non-empty trimmed slice (lines 130-137): the emitted
chunk carries the current index and its character count as tokenCount. -/
def pushChunk (acc : List TextChunk) (idx : Nat) (piece : List Char) :
    List TextChunk :=
  if piece.isEmpty then acc else acc ++ [⟨idx, piece, piece.length⟩]

/-- chunkIndex++ happens only when a chunk was emitted (line 138). -/
def nextIdx (idx : Nat) (piece : List Char) : Nat :=
  if piece.isEmpty then idx else idx + 1

/-- The while loop of chunkText (storage.ts lines 121-150), as a fuelled
recursion: one unit of fuel per iteration, none when fuel runs out (the
source loop would still be running). The loop extracts the slice
[start, min(start+chunkSize, len)), trims it, emits it when non-empty
(consuming the next chunk index), stops when the slice reached the end of
the text, and otherwise advances the scan position by chunkSize - overlap. -/
def chunkLoop (text : List Char) (chunkSize overlap : Int) :
    Nat → Int → Nat → List TextChunk → Option (List TextChunk)
  | 0, _, _, _ => none
  | fuel + 1, start, idx, acc =>
    if start < (text.length : Int) then
      if sliceEnd text chunkSize start = (text.length : Int) then
        some (pushChunk acc idx (pieceAt text chunkSize start))
      else
        chunkLoop text chunkSize overlap fuel (nextStart chunkSize overlap start)
          (nextIdx idx (pieceAt text chunkSize start))
          (pushChunk acc idx (pieceAt text chunkSize start))
    else some acc

/-- chunkText (storage.ts lines 105-153; defaults chunkSize=1500, overlap=200).
Trims the input, returns [] for empty/whitespace-only input, and otherwise
runs the chunking loop from position 0 with chunk index 0. The source
performs no validation of chunkSize/overlap. -/
def chunkText (input : List Char) (chunkSize overlap : Int) (fuel : Nat) :
    Option (List TextChunk) :=
  let text := trimChars input
  if text.isEmpty then some []
  else chunkLoop text chunkSize overlap fuel 0 0 []

example : chunkText "ab".data 1500 200 5 = some [⟨0, ['a', 'b'], 2⟩] := by decide

example : chunkText "  ".data 1500 200 5 = some [] := by decide

/-! ## Cosine similarity and dense rerank (src/lib/similarity.ts)

JavaScript numbers are modelled as real numbers. An out-of-bounds array read
in JavaScript yields undefined, and arithmetic on undefined yields NaN; we
model a possibly-NaN number as an Option over the reals (none = NaN), which
is needed because the rankByCosine inner loop indexes the candidate vector
beyond its length whenever it is shorter than the query. -/

/-- A JavaScript number that may be NaN (none). -/
abbrev JSNum := Option ℝ

/-- Addition with NaN propagation. -/
def jadd : JSNum → JSNum → JSNum
  | some a, some b => some (a + b)
  | _, _ => none

/-- Multiplication with NaN propagation. -/
def jmul : JSNum → JSNum → JSNum
  | some a, some b => some (a * b)
  | _, _ => none

/-- Math.sqrt with NaN propagation. In the source it is only applied to sums
of squares, which are nonnegative, so the negative-argument case (which would
be NaN in JavaScript) cannot arise. -/
noncomputable def jsqrt : JSNum → JSNum
  | some a => some (Real.sqrt a)
  | none => none

/-- The comparison x > 0; false for NaN, as in JavaScript. -/
def jgt0 : JSNum → Prop
  | some a => 0 < a
  | none => False

noncomputable instance (x : JSNum) : Decidable (jgt0 x) :=
  match x with
  | some a => inferInstanceAs (Decidable (0 < a))
  | none => inferInstanceAs (Decidable False)

/-- Numeric value of a guarded JSNum (only read under a jgt0 guard, which
rules out none). -/
def jval (x : JSNum) : ℝ := x.getD 0

/-- The dot-product accumulator of the cosine loop (similarity.ts lines
24-32): both vectors are indexed inside their bounds there, since the
length-mismatch guard has already returned 0. -/
noncomputable def dotProduct (a b : List ℝ) : ℝ :=
  ∑ i ∈ Finset.range a.length, a.getD i 0 * b.getD i 0

/-- The squared-norm accumulator of the same loop (normA/normB before the
square root). -/
noncomputable def sumSquares (a : List ℝ) : ℝ :=
  ∑ i ∈ Finset.range a.length, a.getD i 0 * a.getD i 0

/-- cosine (similarity.ts lines 12-42): 0 on length mismatch, 0 on empty
vectors, 0 when either norm is zero, and otherwise the normalized dot
product. -/
noncomputable def cosine (a b : List ℝ) : ℝ :=
  if a.length ≠ b.length then 0
  else if a.length = 0 then 0
  else
    let normA := Real.sqrt (sumSquares a)
    let normB := Real.sqrt (sumSquares b)
    if normA = 0 ∨ normB = 0 then 0
    else dotProduct a b / (normA * normB)

/-- An element of the vectors argument of rankByCosine. -/
structure VectorItem where
  id : Int
  vector : List ℝ
  docId : Int
  chunkIndex : Int
  filename : String
  text : String

/-- An element of the rankByCosine result: the same fields (spread in the
source) plus the similarity score. -/
structure RankedItem where
  id : Int
  vector : List ℝ
  docId : Int
  chunkIndex : Int
  filename : String
  text : String
  similarity : ℝ

/-- The pre-computed query norm (similarity.ts lines 77-81). -/
noncomputable def queryNormOf (query : List ℝ) : ℝ :=
  Real.sqrt (sumSquares query)

/-- The inner loop of rankByCosine (lines 98-105): iterates j over the
query indices, accumulating query[j] * item.vector[j] and
item.vector[j] * item.vector[j]; the read item.vector[j] may be out of
bounds (undefined, hence NaN) when the item vector is shorter than the
query. One fold step handles one index j. -/
noncomputable def rankStep (query vec : List ℝ) (acc : JSNum × JSNum) (j : Nat) :
    JSNum × JSNum :=
  (jadd acc.1 (jmul (some (query.getD j 0)) vec[j]?),
   jadd acc.2 (jmul vec[j]? vec[j]?))

/-- The accumulated dotProduct and itemNorm (before the square root) of the
rankByCosine inner loop. -/
noncomputable def rankDotNorm (query vec : List ℝ) : JSNum × JSNum :=
  (List.range query.length).foldl (rankStep query vec) (some 0, some 0)

/-- The similarity assigned to one candidate (lines 98-109):
dotProduct / (queryNorm * itemNorm) when both norms are positive
(false for a NaN itemNorm, as in JavaScript), else 0. -/
noncomputable def itemSimilarity (queryNorm : ℝ) (query vec : List ℝ) : ℝ :=
  if jgt0 (jsqrt (rankDotNorm query vec).2) ∧ 0 < queryNorm then
    jval (rankDotNorm query vec).1 /
      (queryNorm * jval (jsqrt (rankDotNorm query vec).2))
  else 0

/-- The result record pushed for one item (lines 111-114): the item's fields
plus its similarity. -/
noncomputable def mkRanked (queryNorm : ℝ) (query : List ℝ) (item : VectorItem) :
    RankedItem :=
  ⟨item.id, item.vector, item.docId, item.chunkIndex, item.filename, item.text,
   itemSimilarity queryNorm query item.vector⟩

/-- The results array before sorting (lines 96-115), in input order. -/
noncomputable def rankedCandidates (query : List ℝ) (vectors : List VectorItem) :
    List RankedItem :=
  vectors.map (mkRanked (queryNormOf query) query)

/-- The sort order of results.sort((a, b) => b.similarity - a.similarity):
descending similarity. -/
def simGE (a b : RankedItem) : Prop :=
  b.similarity ≤ a.similarity

noncomputable instance : DecidableRel simGE :=
  fun a b => inferInstanceAs (Decidable (b.similarity ≤ a.similarity))

instance : IsTotal RankedItem simGE :=
  ⟨fun a b => le_total b.similarity a.similarity⟩

instance : IsTrans RankedItem simGE :=
  ⟨fun _ _ _ h1 h2 => le_trans h2 h1⟩

/-- rankByCosine (similarity.ts lines 52-121): early return on an empty
vectors array, one similarity per item, a stable sort by descending
similarity (Array.prototype.sort is stable per the ECMAScript spec; the
stable insertion sort models it), then slice(0, topK). -/
noncomputable def rankByCosine (query : List ℝ) (vectors : List VectorItem)
    (topK : Nat) : List RankedItem :=
  if vectors.length = 0 then []
  else (List.insertionSort simGE (rankedCandidates query vectors)).take topK

/-! ## Candidate selection of the query route (POST /api/query)

The route fetches the MAX_EMBEDDINGS_SEARCH most recently created embedding
rows (Prisma findMany with orderBy createdAt desc and take), filters out rows
whose stored vector is not a nonempty array, and maps the rest to the items
handed to rankByCosine. A database is modelled as a list of embedding rows;
the descending createdAt ordering is modelled by a sort on createdAt (the
relative order of rows with equal createdAt is unspecified in SQL, and no
claim depends on it). -/

/-- The default candidate cap of the route: MAX_EMBEDDINGS_SEARCH = 1000. -/
def MAX_EMBEDDINGS_SEARCH : Nat := 1000

/-- The sparse-stage candidate cap named by the spec: PREFILTER_LIMIT = 200. -/
def PREFILTER_LIMIT : Nat := 200

/-- One embedding row as fetched by the route, with its joined chunk and
document data. The stored vector is a JSON value: none models a non-array
value, some v an array. -/
structure EmbRow where
  chunkId : Int
  vector : Option (List ℝ)
  createdAt : Int
  documentId : Int
  chunkIndex : Int
  filename : String
  text : String

/-- The orderBy createdAt desc ordering of the findMany call. -/
def createdGE (a b : EmbRow) : Prop :=
  b.createdAt ≤ a.createdAt

instance : DecidableRel createdGE :=
  fun a b => inferInstanceAs (Decidable (b.createdAt ≤ a.createdAt))

instance : IsTotal EmbRow createdGE :=
  ⟨fun a b => le_total b.createdAt a.createdAt⟩

instance : IsTrans EmbRow createdGE :=
  ⟨fun _ _ _ h1 h2 => le_trans h2 h1⟩

/-- The findMany call (query route lines 59-75): most recent first, at most
maxN rows. -/
def fetchEmbeddings (maxN : Nat) (db : List EmbRow) : List EmbRow :=
  (List.insertionSort createdGE db).take maxN

/-- The filter of lines 87-90: Array.isArray(vec) && vec.length > 0. -/
def validVec (r : EmbRow) : Bool :=
  match r.vector with
  | some v => decide (0 < v.length)
  | none => false

/-- The map of lines 91-98: one rankByCosine item per kept row. -/
def toVectorItem (r : EmbRow) : VectorItem :=
  ⟨r.chunkId, r.vector.getD [], r.documentId, r.chunkIndex, r.filename, r.text⟩

/-- The candidate set handed to rankByCosine by the query route (lines
59-101): fetch the maxN most recent rows, keep the valid vectors, map to
items. The route never consults a full-text index. -/
def candidateSet (maxN : Nat) (db : List EmbRow) : List VectorItem :=
  ((fetchEmbeddings maxN db).filter validVec).map toVectorItem

/-- Modelled from the spec: the two-stage candidate selection of section 4.3
(Stage 1 — sparse prefilter), which is not implemented in the non-streaming
query route under src/. A ranked full-text search over fragment text returns
up to PREFILTER_LIMIT candidates ordered by lexical relevance (ftsResult,
none when the index is unavailable); when it is unavailable or returns
nothing, the candidate set is the maxN most recently created embeddings. -/
def specCandidateSet (ftsResult : Option (List VectorItem)) (maxN : Nat)
    (db : List EmbRow) : List VectorItem :=
  match ftsResult with
  | some (c :: cs) => (c :: cs).take PREFILTER_LIMIT
  | _ => ((List.insertionSort createdGE db).take maxN).map toVectorItem

/-! ## Embedding client (src/lib/ollama.ts, embedWithOllama)

The network provider is modelled as a function from the batch of texts sent
in one request to the observed outcome of that request: the server was
unreachable (the fetch rejected with ECONNREFUSED), an HTTP error status with
an error body, or a JSON reply whose embeddings field is either missing /
not an array (none) or an array of vectors (some). -/

/-- Outcome of one provider request. -/
inductive ProviderResp where
  | unreachable : ProviderResp
  | httpError (status : Nat) (body : String) : ProviderResp
  | ok (embeddings : Option (List (List ℝ))) : ProviderResp

/-- The error taxonomy of embedWithOllama, one constructor per distinct
thrown error (ollama.ts lines 43-83). -/
inductive EmbedError where
  | depUnavailable : EmbedError
  | notFound : EmbedError
  | invalidResponse : EmbedError
  | apiError (status : Nat) : EmbedError
  deriving Repr, DecidableEq

/-- Char-list version of startsWith, used to model String.prototype.includes. -/
def startsWithChars : List Char → List Char → Bool
  | [], _ => true
  | _ :: _, [] => false
  | p :: ps, c :: cs => p = c && startsWithChars ps cs

/-- Does pat occur contiguously in the given char list. -/
def inclChars (pat : List Char) : List Char → Bool
  | [] => startsWithChars pat []
  | c :: cs => startsWithChars pat (c :: cs) || inclChars pat cs

/-- Model of String.prototype.includes. -/
def strIncludes (s pat : String) : Bool :=
  inclChars pat.data s.data

/-- The batch size of ollama.ts line 10. -/
def BATCH_SIZE : Nat := 64

/-- Processing of one batch request (ollama.ts lines 31-83): unreachable
server → the cannot-connect error; non-ok response with status 404 or a body
mentioning model / not found → the model-not-found error; other non-ok
response → the generic API error; missing or non-array embeddings field →
the invalid-response error; otherwise the vectors are returned. The returned
vector count is not compared with the batch size. -/
def embedBatch (provider : List String → ProviderResp) (batch : List String) :
    Except EmbedError (List (List ℝ)) :=
  match provider batch with
  | .unreachable => .error .depUnavailable
  | .httpError status body =>
    if status = 404 ∨ strIncludes body "model" ∨ strIncludes body "not found" then
      .error .notFound
    else .error (.apiError status)
  | .ok none => .error .invalidResponse
  | .ok (some vs) => .ok vs

/-- The batching loop of embedWithOllama (lines 27-84): send the first
BATCH_SIZE texts, append the returned vectors, continue with the rest; the
first error aborts the whole call. -/
def embedLoop (provider : List String → ProviderResp) :
    List String → Except EmbedError (List (List ℝ))
  | [] => .ok []
  | t :: ts =>
    match embedBatch provider ((t :: ts).take BATCH_SIZE) with
    | .error e => .error e
    | .ok vs =>
      match embedLoop provider ((t :: ts).drop BATCH_SIZE) with
      | .error e => .error e
      | .ok rest => .ok (vs ++ rest)
termination_by l => l.length
decreasing_by simp [BATCH_SIZE]; omega

/-- embedWithOllama (ollama.ts lines 17-88): an empty input returns the
empty list before any request is made; otherwise the batches are processed
in order. -/
def embedWithOllama (provider : List String → ProviderResp)
    (texts : List String) : Except EmbedError (List (List ℝ)) :=
  if texts.length = 0 then .ok []
  else embedLoop provider texts

/-! ## Lemmas about trimming and substrings -/

/-- dropWhile is the identity when no element satisfies the predicate. -/
theorem dropWhile_eq_self_of (p : Char → Bool) :
    ∀ l : List Char, (∀ c ∈ l, p c = false) → l.dropWhile p = l
  | [], _ => rfl
  | c :: cs, h => by
    rw [List.dropWhile_cons, h c (by simp)]
    simp

/-- trimChars is the identity on whitespace-free text. -/
theorem trimChars_eq_self {l : List Char} (h : ∀ c ∈ l, isWS c = false) :
    trimChars l = l := by
  unfold trimChars
  rw [dropWhile_eq_self_of isWS l h,
    dropWhile_eq_self_of isWS l.reverse (fun c hc => h c (List.mem_reverse.mp hc)),
    List.reverse_reverse]

/-- Trimming never lengthens the text. -/
theorem trimChars_length_le (l : List Char) : (trimChars l).length ≤ l.length := by
  unfold trimChars
  calc ((l.dropWhile isWS).reverse.dropWhile isWS).reverse.length
      = ((l.dropWhile isWS).reverse.dropWhile isWS).length := List.length_reverse _
    _ ≤ (l.dropWhile isWS).reverse.length :=
        ((List.dropWhile_suffix isWS).sublist).length_le
    _ = (l.dropWhile isWS).length := List.length_reverse _
    _ ≤ l.length := ((List.dropWhile_suffix isWS).sublist).length_le

/-- jsSubstring with in-range arguments in increasing order is drop of take. -/
theorem jsSubstring_eval (s : List Char) (a b : Int) (h0 : 0 ≤ a) (hab : a ≤ b)
    (hb : b ≤ (s.length : Int)) :
    jsSubstring s a b = (s.take b.toNat).drop a.toNat := by
  unfold jsSubstring
  have ha2 : (min (max a 0) (s.length : Int)).toNat = a.toNat := by omega
  have hb2 : (min (max b 0) (s.length : Int)).toNat = b.toNat := by omega
  rw [ha2, hb2]
  show (s.take (max a.toNat b.toNat)).drop (min a.toNat b.toNat) =
    (s.take b.toNat).drop a.toNat
  rw [max_eq_right (by omega : a.toNat ≤ b.toNat),
    min_eq_left (by omega : a.toNat ≤ b.toNat)]

/-! ## C1: the chunker accepts overlap = chunkSize and loops forever -/

/-- With chunkSize = overlap = 1500 on a 2000-character text, every loop
iteration keeps the scan position at 0, so no amount of fuel completes the
loop. -/
theorem chunkLoop_diverges :
    ∀ (fuel : Nat) (idx : Nat) (acc : List TextChunk),
      chunkLoop (List.replicate 2000 'a') 1500 1500 fuel 0 idx acc = none := by
  intro fuel
  induction fuel with
  | zero => intro idx acc; rfl
  | succ n ih =>
    intro idx acc
    rw [chunkLoop]
    simp only [List.length_replicate, nextStart, sliceEnd]
    norm_num
    exact ih _ _

/-- C1: the claim says a call with overlap ≥ chunkSize (in particular
chunkSize = 1500, overlap = 1500) is rejected with a ConfigurationError.
The source chunkText performs no configuration validation at all and, on a
2000-character whitespace-free input with chunkSize = overlap = 1500, the
while loop never terminates: the fuelled model returns none for every fuel
value. -/
theorem c1_chunk_no_validation_diverges (fuel : Nat) :
    chunkText (List.replicate 2000 'a') 1500 1500 fuel = none := by
  unfold chunkText
  rw [trimChars_eq_self (by intro c hc; rcases List.eq_of_mem_replicate hc with rfl; rfl)]
  show (if (List.replicate 2000 'a').isEmpty = true then some []
    else chunkLoop (List.replicate 2000 'a') 1500 1500 fuel 0 0 []) = none
  simp only [List.isEmpty_replicate]
  norm_num
  exact chunkLoop_diverges fuel 0 []

/-! ## C9: the loop terminates when 0 ≤ overlap < chunkSize -/

/-- Fuel bound for the chunk loop: with a strictly positive stride
chunkSize - overlap, n iterations past start cover the whole text once
start + n * (chunkSize - overlap) reaches its length, so n + 1 units of
fuel complete the loop. -/
theorem chunkLoop_isSome (text : List Char) (chunkSize overlap : Int)
    (h0 : 0 ≤ overlap) (h1 : overlap < chunkSize) :
    ∀ (n : Nat) (start : Int) (idx : Nat) (acc : List TextChunk),
      (text.length : Int) ≤ start + n * (chunkSize - overlap) →
      (chunkLoop text chunkSize overlap (n + 1) start idx acc).isSome = true := by
  intro n
  induction n with
  | zero =>
    intro start idx acc hle
    rw [chunkLoop]
    have hns : ¬ start < (text.length : Int) := by push_cast at hle; omega
    rw [if_neg hns]
    rfl
  | succ m ih =>
    intro start idx acc hle
    rw [chunkLoop]
    by_cases hs : start < (text.length : Int)
    · rw [if_pos hs]
      by_cases he : sliceEnd text chunkSize start = (text.length : Int)
      · rw [if_pos he]; rfl
      · rw [if_neg he]
        apply ih
        unfold nextStart
        push_cast at hle ⊢
        nlinarith [hle]
    · rw [if_neg hs]
      rfl

/-- C9: for every input and every configuration with 0 ≤ overlap <
chunkSize, the scan position strictly increases on every loop step, and
chunkText terminates: with fuel input.length + 1 (one unit per iteration is
ample, since each iteration advances by at least one character) the fuelled
loop completes. -/
theorem c9_chunkText_terminates (input : List Char) (chunkSize overlap : Int)
    (h0 : 0 ≤ overlap) (h1 : overlap < chunkSize) :
    (∀ start : Int, start < nextStart chunkSize overlap start) ∧
    ∀ fuel : Nat, input.length + 1 ≤ fuel →
      (chunkText input chunkSize overlap fuel).isSome = true := by
  constructor
  · intro start
    unfold nextStart
    omega
  · intro fuel hfuel
    unfold chunkText
    by_cases hempty : (trimChars input).isEmpty = true
    · rw [if_pos hempty]; rfl
    · rw [if_neg hempty]
      obtain ⟨n, rfl⟩ : ∃ n, fuel = n + 1 := ⟨fuel - 1, by omega⟩
      apply chunkLoop_isSome _ _ _ h0 h1
      have hlen : (trimChars input).length ≤ n :=
        le_trans (trimChars_length_le input) (by omega)
      have hstride : (1 : Int) ≤ chunkSize - overlap := by omega
      calc ((trimChars input).length : Int) ≤ (n : Int) := by exact_mod_cast hlen
        _ = (n : Int) * 1 := (mul_one _).symm
        _ ≤ (n : Int) * (chunkSize - overlap) :=
            mul_le_mul_of_nonneg_left hstride (by positivity)
        _ = 0 + (n : Int) * (chunkSize - overlap) := (zero_add _).symm

/-- Witness for C9 at a concrete configuration. -/
theorem c9_chunkText_terminates_witness :
    ((0 : Int) ≤ 200 ∧ (200 : Int) < 1500) ∧
    ((∀ start : Int, start < nextStart 1500 200 start) ∧
      ∀ fuel : Nat, "ab".data.length + 1 ≤ fuel →
        (chunkText "ab".data 1500 200 fuel).isSome = true) :=
  ⟨⟨by norm_num, by norm_num⟩,
    c9_chunkText_terminates "ab".data 1500 200 (by norm_num) (by norm_num)⟩


/-! ## C6: chunking a 2000-character text with chunkSize 1500, overlap 200 -/

/-- C6: on any whitespace-free text of length 2000, chunk(text, 1500, 200)
produces exactly two fragments with sequence indices 0 and 1: the slice
[0, 1500) (length 1500) and the slice [1300, 2000) (length 700). Two loop
iterations suffice, so any fuel of at least 2 completes. -/
theorem c6_chunkText_2000 (text : List Char) (h2000 : text.length = 2000)
    (hws : ∀ c ∈ text, isWS c = false) (fuel : Nat) (hfuel : 2 ≤ fuel) :
    chunkText text 1500 200 fuel =
      some [⟨0, text.take 1500, 1500⟩, ⟨1, text.drop 1300, 700⟩] := by
  obtain ⟨m, rfl⟩ : ∃ m, fuel = m + 1 + 1 := ⟨fuel - 2, by omega⟩
  have htr : trimChars text = text := trimChars_eq_self hws
  have hlenI : (text.length : Int) = 2000 := by rw [h2000]; norm_num
  have hne : text.isEmpty = false :=
    List.isEmpty_eq_false.mpr (by intro e; rw [e] at h2000; simp at h2000)
  unfold chunkText
  rw [htr]
  show (if text.isEmpty = true then some []
    else chunkLoop text 1500 200 (m + 1 + 1) 0 0 []) = _
  rw [hne]
  simp only [Bool.false_eq_true, if_false]
  -- first iteration: slice [0, 1500), emit chunk 0, advance to 1300
  have hslice1 : sliceEnd text 1500 0 = 1500 := by
    unfold sliceEnd; rw [hlenI]; norm_num
  have hpiece1 : pieceAt text 1500 0 = text.take 1500 := by
    unfold pieceAt
    rw [hslice1, jsSubstring_eval text 0 1500 (by norm_num) (by norm_num)
      (by rw [hlenI]; norm_num)]
    norm_num
    exact trimChars_eq_self (fun c hc => hws c (List.mem_of_mem_take hc))
  have hlen1 : (text.take 1500).length = 1500 := by
    simp [List.length_take, h2000]
  have hne1 : (text.take 1500).isEmpty = false :=
    List.isEmpty_eq_false.mpr (by intro e; rw [e] at hlen1; simp at hlen1)
  have hpush1 : pushChunk [] 0 (pieceAt text 1500 0) = [⟨0, text.take 1500, 1500⟩] := by
    rw [hpiece1]
    unfold pushChunk
    rw [hne1, hlen1]
    simp
  have hidx1 : nextIdx 0 (pieceAt text 1500 0) = 1 := by
    rw [hpiece1]
    unfold nextIdx
    rw [hne1]
    simp
  have hstart1 : nextStart 1500 200 0 = 1300 := by unfold nextStart; norm_num
  rw [chunkLoop, hlenI, if_pos (by norm_num : (0 : Int) < 2000), hslice1,
    if_neg (by norm_num : ¬ ((1500 : Int) = 2000)), hpush1, hidx1, hstart1]
  -- second iteration: slice [1300, 2000) reaches the end, emit chunk 1
  have hslice2 : sliceEnd text 1500 1300 = 2000 := by
    unfold sliceEnd; rw [hlenI]; norm_num
  have hpiece2 : pieceAt text 1500 1300 = text.drop 1300 := by
    unfold pieceAt
    rw [hslice2, jsSubstring_eval text 1300 2000 (by norm_num) (by norm_num)
      (by rw [hlenI])]
    rw [List.take_of_length_le (by omega : text.length ≤ (2000 : Int).toNat),
      (by omega : (1300 : Int).toNat = 1300)]
    exact trimChars_eq_self (fun c hc => hws c (List.mem_of_mem_drop hc))
  have hlen2 : (text.drop 1300).length = 700 := by
    simp [List.length_drop, h2000]
  have hne2 : (text.drop 1300).isEmpty = false :=
    List.isEmpty_eq_false.mpr (by intro e; rw [e] at hlen2; simp at hlen2)
  have hpush2 : pushChunk [⟨0, text.take 1500, 1500⟩] 1 (pieceAt text 1500 1300) =
      [⟨0, text.take 1500, 1500⟩, ⟨1, text.drop 1300, 700⟩] := by
    rw [hpiece2]
    unfold pushChunk
    rw [hne2, hlen2]
    simp
  rw [chunkLoop, hlenI, if_pos (by norm_num : (1300 : Int) < 2000), hslice2,
    if_pos rfl, hpush2]

/-- Witness for C6 on a concrete 2000-character text. -/
theorem c6_chunkText_2000_witness :
    ((List.replicate 2000 'a').length = 2000 ∧
      (∀ c ∈ List.replicate 2000 'a', isWS c = false) ∧ 2 ≤ 2) ∧
    chunkText (List.replicate 2000 'a') 1500 200 2 =
      some [⟨0, (List.replicate 2000 'a').take 1500, 1500⟩,
            ⟨1, (List.replicate 2000 'a').drop 1300, 700⟩] :=
  ⟨⟨List.length_replicate 2000 'a',
    fun c hc => by rcases List.eq_of_mem_replicate hc with rfl; rfl, le_refl 2⟩,
   c6_chunkText_2000 (List.replicate 2000 'a') (List.length_replicate 2000 'a')
     (fun c hc => by rcases List.eq_of_mem_replicate hc with rfl; rfl) 2 (le_refl 2)⟩

/-! ## C7: cosine guard behavior -/

/-- C7: cosine returns 0 (it is a total function, so no error can be
raised) whenever the vector lengths differ, and 0 whenever either norm
(the square root of the sum of squares) is zero. -/
theorem c7_cosine_guards (a b : List ℝ) :
    (a.length ≠ b.length → cosine a b = 0) ∧
    (Real.sqrt (sumSquares a) = 0 ∨ Real.sqrt (sumSquares b) = 0 →
      cosine a b = 0) := by
  constructor
  · intro h
    unfold cosine
    rw [if_pos h]
  · intro h
    unfold cosine
    by_cases hlen : a.length ≠ b.length
    · rw [if_pos hlen]
    · rw [if_neg hlen]
      by_cases h0 : a.length = 0
      · rw [if_pos h0]
      · rw [if_neg h0]
        show (if Real.sqrt (sumSquares a) = 0 ∨ Real.sqrt (sumSquares b) = 0
          then (0 : ℝ)
          else dotProduct a b / (Real.sqrt (sumSquares a) * Real.sqrt (sumSquares b))) = 0
        rw [if_pos h]

/-- Witness for C7 at a concrete length mismatch. -/
theorem c7_cosine_guards_witness :
    ([(1 : ℝ)].length ≠ [(1 : ℝ), 2].length) ∧ cosine [1] [1, 2] = 0 :=
  ⟨by simp, (c7_cosine_guards [1] [1, 2]).1 (by simp)⟩

/-! ## C8: cosine of a vector with itself, and symmetry -/

/-- C8: cosine(a, a) = 1 for every vector with a nonzero component, and
cosine is symmetric in its two arguments. -/
theorem c8_cosine_self_and_symm :
    (∀ a : List ℝ, (∃ x ∈ a, x ≠ 0) → cosine a a = 1) ∧
    (∀ a b : List ℝ, cosine a b = cosine b a) := by
  constructor
  · rintro a ⟨x, hx, hx0⟩
    have hne : a ≠ [] := List.ne_nil_of_mem hx
    have hlen0 : ¬ a.length = 0 := by simpa [List.length_eq_zero] using hne
    obtain ⟨i, hi, hgi⟩ := List.mem_iff_getElem.mp hx
    have hpos : 0 < sumSquares a := by
      unfold sumSquares
      apply Finset.sum_pos'
      · intro j _
        exact mul_self_nonneg _
      · refine ⟨i, Finset.mem_range.mpr hi, ?_⟩
        rw [List.getD_eq_getElem a 0 hi, hgi]
        exact mul_self_pos.mpr hx0
    have hsq : ¬ (Real.sqrt (sumSquares a) = 0 ∨ Real.sqrt (sumSquares a) = 0) := by
      simp [(Real.sqrt_pos.mpr hpos).ne']
    unfold cosine
    rw [if_neg (by simp), if_neg hlen0]
    show (if Real.sqrt (sumSquares a) = 0 ∨ Real.sqrt (sumSquares a) = 0
      then (0 : ℝ)
      else dotProduct a a / (Real.sqrt (sumSquares a) * Real.sqrt (sumSquares a))) = 1
    rw [if_neg hsq]
    have hd : dotProduct a a = sumSquares a := rfl
    rw [hd, Real.mul_self_sqrt hpos.le]
    exact div_self hpos.ne'
  · intro a b
    by_cases hlen : a.length = b.length
    · have hd : dotProduct a b = dotProduct b a := by
        unfold dotProduct
        rw [hlen]
        exact Finset.sum_congr rfl (fun i _ => mul_comm _ _)
      unfold cosine
      rw [if_neg (show ¬ a.length ≠ b.length by omega),
        if_neg (show ¬ b.length ≠ a.length by omega)]
      by_cases h0 : a.length = 0
      · rw [if_pos h0, if_pos (show b.length = 0 by omega)]
      · rw [if_neg h0, if_neg (show ¬ b.length = 0 by omega)]
        show (if Real.sqrt (sumSquares a) = 0 ∨ Real.sqrt (sumSquares b) = 0
          then (0 : ℝ)
          else dotProduct a b / (Real.sqrt (sumSquares a) * Real.sqrt (sumSquares b))) =
          (if Real.sqrt (sumSquares b) = 0 ∨ Real.sqrt (sumSquares a) = 0
          then (0 : ℝ)
          else dotProduct b a / (Real.sqrt (sumSquares b) * Real.sqrt (sumSquares a)))
        rw [hd, mul_comm (Real.sqrt (sumSquares a)) (Real.sqrt (sumSquares b))]
        exact if_congr or_comm rfl rfl
    · unfold cosine
      rw [if_pos hlen, if_pos (Ne.symm hlen)]

/-- Witness for C8 at the nonzero vector [1]. -/
theorem c8_cosine_self_and_symm_witness :
    (∃ x ∈ [(1 : ℝ)], x ≠ 0) ∧ cosine [1] [1] = 1 :=
  ⟨⟨1, by simp, one_ne_zero⟩,
    c8_cosine_self_and_symm.1 [1] ⟨1, by simp, one_ne_zero⟩⟩

/-! ## C10: embedding the empty list -/

/-- C10: embedWithOllama on the empty text list returns the empty vector
list for every provider, in particular for an unreachable one: the early
return fires before any request is made. -/
theorem c10_embed_empty (provider : List String → ProviderResp) :
    embedWithOllama provider [] = Except.ok [] := by
  unfold embedWithOllama
  simp

/-! ## C4: error taxonomy and vector count of embedWithOllama -/

/-- The counting lemma for the batching loop: with a provider that returns
one vector per text of every batch, the loop succeeds and returns one
vector per input text. -/
theorem embedLoop_count (provider : List String → ProviderResp)
    (hp : ∀ b, ∃ vs, provider b = ProviderResp.ok (some vs) ∧ vs.length = b.length) :
    ∀ (n : Nat) (texts : List String), texts.length ≤ n →
      ∃ out, embedLoop provider texts = Except.ok out ∧
        out.length = texts.length := by
  intro n
  induction n with
  | zero =>
    intro texts h
    have he : texts = [] := List.length_eq_zero.mp (by omega)
    subst he
    exact ⟨[], by rw [embedLoop], rfl⟩
  | succ m ih =>
    intro texts h
    cases texts with
    | nil => exact ⟨[], by rw [embedLoop], rfl⟩
    | cons t ts =>
      obtain ⟨vs, hv, hvlen⟩ := hp ((t :: ts).take BATCH_SIZE)
      obtain ⟨rest, hr, hrlen⟩ := ih ((t :: ts).drop BATCH_SIZE)
        (by
          simp only [List.length_drop, List.length_cons, BATCH_SIZE] at h ⊢
          omega)
      refine ⟨vs ++ rest, ?_, ?_⟩
      · rw [embedLoop]
        unfold embedBatch
        rw [hv, hr]
      · rw [List.length_append, hvlen, hrlen, List.length_take, List.length_drop]
        omega

/-- C4 (amended): embedWithOllama classifies provider failures as the claim
says — the cannot-connect error when the provider is unreachable, the
model-not-found error on a 404 status (or an error body mentioning the
model), the invalid-response error when the embeddings field is missing or
not an array — and on a provider that returns one vector per text of each
batch it succeeds with exactly one vector per input text. It does NOT
validate the returned vector count, so the InvalidResponse-on-count-mismatch
part of the original claim is dropped (see the counterexample). -/
theorem c4_embed_errors_and_count :
    (∀ (provider : List String → ProviderResp) (texts : List String),
      texts ≠ [] → (∀ b, provider b = ProviderResp.unreachable) →
      embedWithOllama provider texts = Except.error EmbedError.depUnavailable) ∧
    (∀ (provider : List String → ProviderResp) (texts : List String)
      (status : Nat) (body : String), texts ≠ [] →
      (∀ b, provider b = ProviderResp.httpError status body) →
      (status = 404 ∨ strIncludes body "model" = true ∨
        strIncludes body "not found" = true) →
      embedWithOllama provider texts = Except.error EmbedError.notFound) ∧
    (∀ (provider : List String → ProviderResp) (texts : List String),
      texts ≠ [] → (∀ b, provider b = ProviderResp.ok none) →
      embedWithOllama provider texts = Except.error EmbedError.invalidResponse) ∧
    (∀ (provider : List String → ProviderResp) (texts : List String),
      (∀ b, ∃ vs, provider b = ProviderResp.ok (some vs) ∧ vs.length = b.length) →
      ∃ out, embedWithOllama provider texts = Except.ok out ∧
        out.length = texts.length) := by
  refine ⟨?_, ?_, ?_, ?_⟩
  · intro provider texts hne hp
    obtain ⟨t, ts, rfl⟩ := List.exists_cons_of_ne_nil hne
    unfold embedWithOllama
    rw [if_neg (by simp)]
    rw [embedLoop]
    unfold embedBatch
    rw [hp]
  · intro provider texts status body hne hp hst
    obtain ⟨t, ts, rfl⟩ := List.exists_cons_of_ne_nil hne
    unfold embedWithOllama
    rw [if_neg (by simp)]
    rw [embedLoop]
    have hb : embedBatch provider ((t :: ts).take BATCH_SIZE) =
        Except.error EmbedError.notFound := by
      unfold embedBatch
      simp only [hp]
      rw [if_pos hst]
    rw [hb]
  · intro provider texts hne hp
    obtain ⟨t, ts, rfl⟩ := List.exists_cons_of_ne_nil hne
    unfold embedWithOllama
    rw [if_neg (by simp)]
    rw [embedLoop]
    unfold embedBatch
    rw [hp]
  · intro provider texts hp
    cases texts with
    | nil => exact ⟨[], by unfold embedWithOllama; simp, rfl⟩
    | cons t ts =>
      obtain ⟨out, ho, hlen⟩ :=
        embedLoop_count provider hp (t :: ts).length (t :: ts) le_rfl
      exact ⟨out, by unfold embedWithOllama; rw [if_neg (by simp), ho], hlen⟩

/-- Witness for C4 exercising each conjunct at concrete inputs. -/
theorem c4_embed_errors_and_count_witness :
    embedWithOllama (fun _ => ProviderResp.unreachable) ["a"] =
      Except.error EmbedError.depUnavailable ∧
    embedWithOllama (fun _ => ProviderResp.httpError 404 "") ["a"] =
      Except.error EmbedError.notFound ∧
    embedWithOllama (fun _ => ProviderResp.ok none) ["a"] =
      Except.error EmbedError.invalidResponse ∧
    ∃ out, embedWithOllama
      (fun b => ProviderResp.ok (some (b.map (fun _ => [(1 : ℝ)])))) ["a"] =
        Except.ok out ∧ out.length = ["a"].length :=
  ⟨c4_embed_errors_and_count.1 _ ["a"] (by simp) (fun _ => rfl),
   c4_embed_errors_and_count.2.1 _ ["a"] 404 "" (by simp) (fun _ => rfl)
     (Or.inl rfl),
   c4_embed_errors_and_count.2.2.1 _ ["a"] (by simp) (fun _ => rfl),
   c4_embed_errors_and_count.2.2.2 _ ["a"]
     (fun b => ⟨b.map (fun _ => [(1 : ℝ)]), rfl, by simp⟩)⟩

/-- C4 counterexample: a provider that answers a well-formed embeddings
array whose count (2) differs from the batch size (1) is not rejected: the
call succeeds and returns 2 vectors for 1 input text, so no InvalidResponse
error is raised on a count mismatch. -/
theorem c4_counterexample :
    embedWithOllama (fun _ => ProviderResp.ok (some [[1], [2]])) ["a"] =
      Except.ok [[(1 : ℝ)], [2]] ∧
    ¬ ([[(1 : ℝ)], [2]].length = ["a"].length) := by
  constructor
  · unfold embedWithOllama
    rw [if_neg (by simp)]
    rw [embedLoop]
    unfold embedBatch
    have hd : List.drop BATCH_SIZE ["a"] = [] :=
      List.drop_eq_nil_of_le (by simp [BATCH_SIZE])
    rw [hd]
    rw [embedLoop]
    simp
  · simp

/-! ## C2: the candidate set handed to the dense rerank stage -/

/-- An older embedding row (createdAt 10) whose text a lexical prefilter
would match. -/
def rowOld : EmbRow := ⟨1, some [1], 10, 1, 0, "a.pdf", "alpha"⟩

/-- A more recently created embedding row (createdAt 20). -/
def rowNew : EmbRow := ⟨2, some [1], 20, 1, 1, "a.pdf", "beta"⟩

/-- C2 counterexample: with a database of two rows and an available
full-text index returning the older row as its one ranked candidate, the
candidate set the route actually hands to the rerank stage (both rows, most
recent first) differs from the claimed sparse-prefilter candidate set (just
the older row): the route never consults a full-text index. -/
theorem c2_counterexample :
    candidateSet MAX_EMBEDDINGS_SEARCH [rowOld, rowNew] ≠
      specCandidateSet (some [toVectorItem rowOld]) MAX_EMBEDDINGS_SEARCH
        [rowOld, rowNew] := by
  intro h
  have hl := congrArg List.length h
  simp [candidateSet, specCandidateSet, fetchEmbeddings, validVec, toVectorItem,
    rowOld, rowNew, createdGE, MAX_EMBEDDINGS_SEARCH, PREFILTER_LIMIT] at hl

/-- C2 (amended): the candidate set of the non-streaming query route is
always the fallback branch of the spec's two-stage selection — the maxN
most recently created embeddings, with rows whose stored vector is not a
nonempty array dropped — independent of any full-text index, and its size
is bounded by maxN. On a database whose rows all hold valid vectors it
equals the spec's fallback candidate set exactly. -/
theorem c2_candidates_always_fallback (maxN : Nat) (db : List EmbRow)
    (hvalid : ∀ r ∈ db, validVec r = true) :
    candidateSet maxN db = specCandidateSet none maxN db ∧
    (candidateSet maxN db).length ≤ maxN := by
  constructor
  · unfold candidateSet specCandidateSet fetchEmbeddings
    congr 1
    apply List.filter_eq_self.mpr
    intro r hr
    exact hvalid r
      ((List.perm_insertionSort createdGE db).mem_iff.mp (List.mem_of_mem_take hr))
  · unfold candidateSet fetchEmbeddings
    rw [List.length_map]
    exact le_trans (List.length_filter_le _ _) (List.length_take_le _ _)

/-- Witness for C2 (amended) on a one-row database. -/
theorem c2_candidates_always_fallback_witness :
    (∀ r ∈ [rowOld], validVec r = true) ∧
    (candidateSet 3 [rowOld] = specCandidateSet none 3 [rowOld] ∧
      (candidateSet 3 [rowOld]).length ≤ 3) :=
  ⟨fun r hr => by rcases List.mem_singleton.mp hr with rfl; rfl,
   c2_candidates_always_fallback 3 [rowOld]
     (fun r hr => by rcases List.mem_singleton.mp hr with rfl; rfl)⟩

/-! ## NaN-propagation lemmas for the rankByCosine inner loop -/

theorem jadd_none_left (x : JSNum) : jadd none x = none := by
  cases x <;> rfl

theorem jadd_some (a b : ℝ) : jadd (some a) (some b) = some (a + b) := rfl

theorem jmul_some (a b : ℝ) : jmul (some a) (some b) = some (a * b) := rfl

theorem jadd_none_right (x : JSNum) : jadd x none = none := by
  cases x <;> rfl

theorem jmul_none_right (x : JSNum) : jmul x none = none := by
  cases x <;> rfl

/-- With all indices in bounds, the loop accumulates the plain real sums. -/
theorem rankFold_inBounds (query vec : List ℝ) :
    ∀ n, n ≤ vec.length →
      (List.range n).foldl (rankStep query vec) (some 0, some 0) =
        (some (∑ i ∈ Finset.range n, query.getD i 0 * vec.getD i 0),
         some (∑ i ∈ Finset.range n, vec.getD i 0 * vec.getD i 0)) := by
  intro n
  induction n with
  | zero => intro h; simp
  | succ m ih =>
    intro h
    rw [List.range_succ, List.foldl_append, ih (by omega)]
    have hm : vec[m]? = some (vec.getD m 0) := by
      rw [List.getElem?_eq_getElem (by omega : m < vec.length),
        List.getD_eq_getElem vec 0 (by omega)]
    simp only [List.foldl_cons, List.foldl_nil]
    unfold rankStep
    rw [hm, jmul_some, jmul_some, jadd_some, jadd_some,
      Finset.sum_range_succ, Finset.sum_range_succ]

/-- As soon as the index range passes the end of the candidate vector, the
out-of-bounds read poisons both accumulators with NaN. -/
theorem rankFold_short (query vec : List ℝ) :
    ∀ n, vec.length < n →
      (List.range n).foldl (rankStep query vec) (some 0, some 0) =
        (none, none) := by
  intro n
  induction n with
  | zero => intro h; omega
  | succ m ih =>
    intro h
    rw [List.range_succ, List.foldl_append]
    by_cases hm : vec.length < m
    · rw [ih hm]
      simp only [List.foldl_cons, List.foldl_nil]
      unfold rankStep
      rw [jadd_none_left, jadd_none_left]
    · have hm2 : m = vec.length := by omega
      subst hm2
      have hnone : vec[vec.length]? = none := List.getElem?_eq_none le_rfl
      simp only [List.foldl_cons, List.foldl_nil]
      unfold rankStep
      rw [hnone, jmul_none_right, jmul_none_right, jadd_none_right, jadd_none_right]

/-- A candidate vector shorter than the query yields NaN in both
accumulators. -/
theorem rankDotNorm_short (query vec : List ℝ) (h : vec.length < query.length) :
    rankDotNorm query vec = (none, none) := by
  unfold rankDotNorm
  exact rankFold_short query vec query.length h

/-- A candidate vector at least as long as the query yields the dot product
and squared norm of its prefix of the query's length. -/
theorem rankDotNorm_long (query vec : List ℝ) (h : query.length ≤ vec.length) :
    rankDotNorm query vec =
      (some (dotProduct query (vec.take query.length)),
       some (sumSquares (vec.take query.length))) := by
  unfold rankDotNorm
  rw [rankFold_inBounds query vec query.length h]
  have hget : ∀ i, i < query.length →
      (vec.take query.length).getD i 0 = vec.getD i 0 := by
    intro i hi
    rw [List.getD_eq_getElem?_getD, List.getD_eq_getElem?_getD,
      List.getElem?_take_of_lt hi]
  have e1 : dotProduct query (vec.take query.length) =
      ∑ i ∈ Finset.range query.length, query.getD i 0 * vec.getD i 0 := by
    unfold dotProduct
    exact Finset.sum_congr rfl
      (fun i hi => by rw [hget i (Finset.mem_range.mp hi)])
  have e2 : sumSquares (vec.take query.length) =
      ∑ i ∈ Finset.range query.length, vec.getD i 0 * vec.getD i 0 := by
    unfold sumSquares
    rw [List.length_take, min_eq_left h]
    exact Finset.sum_congr rfl
      (fun i hi => by rw [hget i (Finset.mem_range.mp hi)])
  rw [e1, e2]

/-- The score rankByCosine computes for a candidate equals cosine applied to
the query and the candidate vector truncated to the query's length: for a
shorter candidate the NaN-poisoned guard yields 0, which cosine also returns
on the (unchanged-by-truncation) length mismatch; for a candidate at least
as long, both compute the same normalized dot product over the prefix. -/
theorem itemSimilarity_eq_cosine (query vec : List ℝ) :
    itemSimilarity (queryNormOf query) query vec =
      cosine query (vec.take query.length) := by
  by_cases h : vec.length < query.length
  · -- shorter candidate: NaN guard on the left, length mismatch on the right
    unfold itemSimilarity
    rw [rankDotNorm_short query vec h]
    have hguard : ¬ (jgt0 (jsqrt ((none, none) : JSNum × JSNum).2) ∧
        0 < queryNormOf query) := by
      intro hc
      exact (by exact hc.1 : jgt0 (jsqrt none))
    rw [if_neg hguard, List.take_of_length_le h.le]
    unfold cosine
    rw [if_pos (by omega : query.length ≠ vec.length)]
  · push_neg at h
    unfold itemSimilarity
    rw [rankDotNorm_long query vec h]
    have htv : (vec.take query.length).length = query.length := by
      rw [List.length_take, min_eq_left h]
    by_cases h0 : query.length = 0
    · -- empty query: query norm is 0, both sides 0
      have hq : queryNormOf query = 0 := by
        unfold queryNormOf sumSquares
        rw [h0]
        simp
      rw [if_neg (by rw [hq]; exact fun hc => lt_irrefl 0 hc.2)]
      unfold cosine
      rw [if_neg (by omega : ¬ query.length ≠ (vec.take query.length).length),
        if_pos h0]
    · -- non-empty query of valid length: same guard, same value
      unfold cosine
      rw [if_neg (by omega : ¬ query.length ≠ (vec.take query.length).length),
        if_neg h0]
      show _ = (if Real.sqrt (sumSquares query) = 0 ∨
          Real.sqrt (sumSquares (vec.take query.length)) = 0 then (0 : ℝ)
        else dotProduct query (vec.take query.length) /
          (Real.sqrt (sumSquares query) *
            Real.sqrt (sumSquares (vec.take query.length))))
      by_cases hz : Real.sqrt (sumSquares query) = 0 ∨
          Real.sqrt (sumSquares (vec.take query.length)) = 0
      · rw [if_pos hz]
        rcases hz with hz | hz
        · rw [if_neg (by
            intro hc
            exact absurd hz (by unfold queryNormOf at hc; exact hc.2.ne'))]
        · rw [if_neg (by
            intro hc
            have : jgt0 (jsqrt (some (sumSquares (vec.take query.length)))) := hc.1
            exact absurd hz (by exact this.ne'))]
      · rw [if_neg hz]
        push_neg at hz
        obtain ⟨hzA, hzB⟩ := hz
        have hA : 0 < Real.sqrt (sumSquares query) :=
          lt_of_le_of_ne (Real.sqrt_nonneg _) (Ne.symm hzA)
        have hB : 0 < Real.sqrt (sumSquares (vec.take query.length)) :=
          lt_of_le_of_ne (Real.sqrt_nonneg _) (Ne.symm hzB)
        rw [if_pos ⟨(by exact hB : jgt0 (jsqrt (some (sumSquares (vec.take query.length))))),
          (by unfold queryNormOf; exact hA)⟩]
        unfold queryNormOf jval jsqrt
        simp

/-! ## C3: the score rankByCosine assigns versus cosine -/

/-- C3 (amended): every item in the rankByCosine output carries the score
cosine(query, vector truncated to the query's length). When the candidate
vector's length is at most the query's this equals cosine(query, vector)
(0 on a strict mismatch); when the candidate is longer, the assigned score
is the cosine of the query with the vector's prefix, which is in general
nonzero, not cosine(query, vector) = 0 as the original claim states. -/
theorem c3_rank_similarity (query : List ℝ) (vectors : List VectorItem)
    (topK : Nat) (r : RankedItem) (hr : r ∈ rankByCosine query vectors topK) :
    r.similarity = cosine query (r.vector.take query.length) := by
  unfold rankByCosine at hr
  by_cases hv : vectors.length = 0
  · rw [if_pos hv] at hr
    simp at hr
  · rw [if_neg hv] at hr
    have h1 : r ∈ List.insertionSort simGE (rankedCandidates query vectors) :=
      List.mem_of_mem_take hr
    have h2 : r ∈ rankedCandidates query vectors :=
      (List.perm_insertionSort simGE _).mem_iff.mp h1
    unfold rankedCandidates at h2
    obtain ⟨item, _, rfl⟩ := List.mem_map.mp h2
    exact itemSimilarity_eq_cosine query item.vector

/-- cosine of the one-component unit vector with itself, evaluated. -/
theorem cosine_one_one : cosine [(1 : ℝ)] [1] = 1 := by
  unfold cosine
  rw [if_neg (by simp), if_neg (by simp)]
  have hs : sumSquares [(1 : ℝ)] = 1 := by
    unfold sumSquares
    simp
  show (if Real.sqrt (sumSquares [(1 : ℝ)]) = 0 ∨
      Real.sqrt (sumSquares [(1 : ℝ)]) = 0 then (0 : ℝ)
    else dotProduct [(1 : ℝ)] [1] /
      (Real.sqrt (sumSquares [(1 : ℝ)]) * Real.sqrt (sumSquares [(1 : ℝ)]))) = 1
  rw [hs, Real.sqrt_one, if_neg (by norm_num)]
  have hd : dotProduct [(1 : ℝ)] [1] = 1 := by
    unfold dotProduct
    simp
  rw [hd]
  norm_num

/-- C3 counterexample: for query [1] and the single candidate vector [1, 1]
(longer than the query), rankByCosine assigns the score 1, while
cosine([1], [1, 1]) = 0 by the length-mismatch rule — so the assigned score
is not cosine(query, item.vector). -/
theorem c3_counterexample :
    (rankByCosine [1] [⟨0, [1, 1], 0, 0, "", ""⟩] 1).map RankedItem.similarity =
      [1] ∧
    cosine [1] [1, 1] = 0 ∧ (1 : ℝ) ≠ 0 := by
  refine ⟨?_, ?_, one_ne_zero⟩
  · unfold rankByCosine
    rw [if_neg (by simp)]
    unfold rankedCandidates
    simp only [List.map_cons, List.map_nil, List.insertionSort,
      List.orderedInsert, List.take, List.map]
    show [itemSimilarity (queryNormOf [1]) [1] [1, 1]] = [1]
    rw [itemSimilarity_eq_cosine]
    show [cosine [1] [1]] = [1]
    rw [cosine_one_one]
  · unfold cosine
    rw [if_pos (by simp)]

/-- Witness for C3 (amended) at a concrete query and candidate. -/
theorem c3_rank_similarity_witness :
    (mkRanked (queryNormOf [1]) [1] ⟨0, [1], 0, 0, "", ""⟩ ∈
      rankByCosine [1] [⟨0, [1], 0, 0, "", ""⟩] 1) ∧
    (mkRanked (queryNormOf [1]) [1] ⟨0, [1], 0, 0, "", ""⟩).similarity =
      cosine [1]
        ((mkRanked (queryNormOf [1]) [1] ⟨0, [1], 0, 0, "", ""⟩).vector.take
          [(1 : ℝ)].length) :=
  ⟨by
    unfold rankByCosine
    rw [if_neg (by simp)]
    unfold rankedCandidates
    simp [List.insertionSort, List.orderedInsert],
   c3_rank_similarity [1] [⟨0, [1], 0, 0, "", ""⟩] 1 _ (by
    unfold rankByCosine
    rw [if_neg (by simp)]
    unfold rankedCandidates
    simp [List.insertionSort, List.orderedInsert])⟩

/-! ## C5: at most topK results, sorted descending, stable on ties -/

/-- Inserting x into l with the descending-similarity order keeps the
filtered-by-score sublists of x :: l: x only moves past elements of
strictly greater score, never past an equal one. -/
theorem filter_orderedInsert_sim (s : ℝ) (x : RankedItem) :
    ∀ l : List RankedItem,
      (List.orderedInsert simGE x l).filter (fun r => decide (r.similarity = s)) =
        (x :: l).filter (fun r => decide (r.similarity = s))
  | [] => rfl
  | y :: ys => by
    have ih := filter_orderedInsert_sim s x ys
    by_cases hxy : simGE x y
    · show (if simGE x y then x :: y :: ys
        else y :: List.orderedInsert simGE x ys).filter
          (fun r => decide (r.similarity = s)) = _
      rw [if_pos hxy]
    · have hlt : x.similarity < y.similarity := not_le.mp hxy
      show (if simGE x y then x :: y :: ys
        else y :: List.orderedInsert simGE x ys).filter
          (fun r => decide (r.similarity = s)) = _
      rw [if_neg hxy]
      by_cases hpx : x.similarity = s
      · have hpy : ¬ y.similarity = s := by
          intro e
          rw [hpx] at hlt
          rw [e] at hlt
          exact lt_irrefl _ hlt
        simp [List.filter_cons, hpx, hpy, ih]
      · by_cases hpy : y.similarity = s
        · simp [List.filter_cons, hpx, hpy, ih]
        · simp [List.filter_cons, hpx, hpy, ih]

/-- The stable insertion sort preserves each equal-score sublist. -/
theorem filter_insertionSort_sim (s : ℝ) :
    ∀ l : List RankedItem,
      (List.insertionSort simGE l).filter (fun r => decide (r.similarity = s)) =
        l.filter (fun r => decide (r.similarity = s))
  | [] => rfl
  | x :: xs => by
    show (List.orderedInsert simGE x (List.insertionSort simGE xs)).filter _ = _
    rw [filter_orderedInsert_sim s x (List.insertionSort simGE xs),
      List.filter_cons, List.filter_cons, filter_insertionSort_sim s xs]

/-- C5: rankByCosine returns at most topK results (the claim's topK ≥ 0 is
automatic for a natural-number topK), sorted by similarity descending, and
stable on ties: for each score s, the results scoring s form a sublist (same
relative order) of the per-item score records taken in input order. -/
theorem c5_rank_topk_sorted_stable (query : List ℝ) (vectors : List VectorItem)
    (topK : Nat) :
    (rankByCosine query vectors topK).length ≤ topK ∧
    List.Sorted simGE (rankByCosine query vectors topK) ∧
    ∀ s : ℝ,
      ((rankByCosine query vectors topK).filter
        (fun r => decide (r.similarity = s))).Sublist
      ((rankedCandidates query vectors).filter
        (fun r => decide (r.similarity = s))) := by
  have heq : rankByCosine query vectors topK =
      (List.insertionSort simGE (rankedCandidates query vectors)).take topK := by
    unfold rankByCosine
    by_cases hv : vectors.length = 0
    · rw [if_pos hv]
      obtain rfl := List.length_eq_zero.mp hv
      simp [rankedCandidates]
    · rw [if_neg hv]
  refine ⟨?_, ?_, ?_⟩
  · rw [heq]
    exact List.length_take_le _ _
  · rw [heq]
    exact List.Pairwise.sublist (List.take_sublist _ _)
      (List.sorted_insertionSort simGE _)
  · intro s
    rw [heq]
    have h1 := (List.take_sublist topK
      (List.insertionSort simGE (rankedCandidates query vectors))).filter
      (fun r => decide (r.similarity = s))
    rw [filter_insertionSort_sim s] at h1
    exact h1
